import Mathlib

/-!
Verification of the replication engine of backup-influxdb against its
specification.  The Python sources are shallowly embedded: Python `str`
becomes `List Char`, `datetime`/`timedelta` become integer counts of
nanoseconds since the Unix epoch (Python's `datetime` has microsecond
resolution, so one `timedelta(microseconds=1)` is 1000 ns), dictionaries
become association lists in insertion order, and fallible code returns
`Except`/`Option`.  Every definition is translated from the repository's
source files (`src/utils.py`, `src/config_manager.py`,
`src/classes/influxdb_client.py`, `src/classes/backup_processor.py`);
definitions written from the specification's words for comparison carry
a `spec` marker in their doc comment.
-/

/-- Python `str` is embedded as a list of characters. -/
abbrev Str := List Char

/-- Nanoseconds in one `timedelta(microseconds=1)`. -/
def microsecond_ns : Int := 1000

/-- Nanoseconds in one second. -/
def second_ns : Int := 1000000000

/-- Nanoseconds in one `timedelta(days=1)`. -/
def day_ns : Int := 86400000000000

/-- The double-quote character used by `escape_influxdb_identifier`. -/
def dquote : Char := '\x22'

/-- The single-quote character used by `escape_influxdb_string_value`. -/
def squote : Char := '\x27'

/-- The backslash character used by the escaping helpers. -/
def bslash : Char := '\\'

/-- Decimal digits of a natural number, most significant first; Python
`str` on a non-negative `int`. -/
def nat_chars (n : Nat) : Str :=
  if h : n < 10 then [Nat.digitChar n]
  else nat_chars (n / 10) ++ [Nat.digitChar (n % 10)]
termination_by n
decreasing_by
  exact Nat.div_lt_self (by omega) (by omega)

/-- Python `str` on an `int`: optional minus sign, then the digits. -/
def int_chars (n : Int) : Str :=
  if n < 0 then '-' :: nat_chars (-n).toNat else nat_chars n.toNat

/-- utils.generate_time_ranges (src/utils.py:100-122): split
`[start_time, end_time)` into chunks of `chunk_days` days, the last one
capped at `end_time`.  The loop runs while `current_start < end_time`;
the configuration schema (config_manager.py:150) guarantees
`days_of_pagination > 0`, which the embedding takes as a guard so the
recursion is total. -/
def generate_time_ranges (start_time end_time : Int) (chunk_days : Nat) :
    List (Int × Int) :=
  if h : start_time < end_time ∧ 0 < chunk_days then
    let current_end := min (start_time + (chunk_days : Int) * day_ns) end_time
    (start_time, current_end) :: generate_time_ranges current_end end_time chunk_days
  else []
termination_by (end_time - start_time).toNat
decreasing_by
  simp only [day_ns] at *
  omega

/-- Nanoseconds of the `timedelta` one duration unit stands for in
utils.parse_duration (src/utils.py:44-71): `s m h d w M y`, with a month
approximated as 30 days and a year as 365 days. -/
def duration_unit_ns (u : Char) : Option Int :=
  if u = 's' then some second_ns
  else if u = 'm' then some (60 * second_ns)
  else if u = 'h' then some (3600 * second_ns)
  else if u = 'd' then some day_ns
  else if u = 'w' then some (7 * day_ns)
  else if u = 'M' then some (30 * day_ns)
  else if u = 'y' then some (365 * day_ns)
  else none

/-- Numeric value of a string of decimal digits. -/
def nat_of_digits (ds : Str) : Nat :=
  ds.foldl (fun a c => a * 10 + (c.toNat - '0'.toNat)) 0

/-- utils.parse_duration (src/utils.py:18-71): reject the empty string,
strip surrounding whitespace, then match `^(\d+)(s|m|h|d|w|M|y)$`; the
result is the duration as nanoseconds.  `none` stands for the
`ValueError` the Python function raises. -/
def parse_duration (duration_str : Str) : Option Int :=
  if duration_str = [] then none
  else
    let t := (duration_str.dropWhile Char.isWhitespace).reverse.dropWhile
      Char.isWhitespace |>.reverse
    match t.getLast? with
    | none => none
    | some u =>
      let ds := t.dropLast
      if ds ≠ [] ∧ ds.all Char.isDigit then
        (duration_unit_ns u).map (fun w => (nat_of_digits ds : Int) * w)
      else none

/-- backup_processor._is_field_obsolete (src/classes/backup_processor.py:
236-274): `False` when the threshold is unset or empty; otherwise parse
the threshold (any parse failure is caught and yields `False`), set
`cutoff = now - threshold`, fetch the field's last timestamp in the
destination (`last_ts`, `none` when the field has no data there) and
report obsolete exactly when a last timestamp exists and is strictly
before the cutoff. -/
def is_field_obsolete (threshold_str : Option Str) (now : Int)
    (last_ts : Option Int) : Bool :=
  match threshold_str with
  | none => false
  | some s =>
    if s = [] then false
    else
      match parse_duration s with
      | none => false
      | some threshold =>
        match last_ts with
        | some t => decide (t < now - threshold)
        | none => false

/-- spec: the obsolescence predicate as the claim states it — the
destination last timestamp exists and is strictly earlier than
`now - threshold`. -/
def obsolete_per_spec (threshold now : Int) (last_ts : Option Int) : Prop :=
  ∃ t, last_ts = some t ∧ t < now - threshold

/-- config_manager.get_final_database_name (src/config_manager.py:
312-329): `base_name = destination_name or source_name` (Python `or`
also falls back on the empty string), then prefix and suffix are always
applied.  `name_pre`/`name_suf` are the configured `prefix`/`suffix`. -/
def get_final_database_name (name_pre name_suf : Str) (source_name : Str)
    (destination_name : Option Str) : Str :=
  let base_name :=
    match destination_name with
    | some d => if d = [] then source_name else d
    | none => source_name
  name_pre ++ base_name ++ name_suf

/-- The destination database backup_processor._is_field_obsolete consults
(src/classes/backup_processor.py:259): `get_final_database_name(database)`
with the per-database destination override not passed. -/
def obsolete_check_database (name_pre name_suf : Str) (source_name : Str) : Str :=
  get_final_database_name name_pre name_suf source_name none

/-- The per-measurement `fields` policy of the configuration
(config_manager schema, src/config_manager.py:117-135): include and
exclude lists plus an optional permitted-type list; `none` for `types`
models the key being absent, in which case
config_manager.get_allowed_field_types falls back to all three types. -/
structure FieldsPolicy where
  incl : List Str
  excl : List Str
  types : Option (List Str)

/-- The `measurements.specific` table: measurement name to field policy. -/
def SpecificTable := List (Str × FieldsPolicy)

/-- Lookup of config_manager.get_measurement_specific_config
(src/config_manager.py:361-374). -/
def get_measurement_specific_config (specific : SpecificTable) (m : Str) :
    Option FieldsPolicy :=
  (specific.find? (fun kv => kv.1 = m)).map (·.2)

/-- config_manager.get_allowed_field_types (src/config_manager.py:
446-461): the measurement's `types` list, defaulting to all of numeric,
string and boolean when the measurement has no specific policy or the
policy has no `types` key. -/
def get_allowed_field_types (specific : SpecificTable) (m : Str) : List Str :=
  match get_measurement_specific_config specific m with
  | some p => p.types.getD ["numeric".data, "string".data, "boolean".data]
  | none => ["numeric".data, "string".data, "boolean".data]

/-- config_manager.get_fields_to_include (src/config_manager.py:463-476). -/
def get_fields_to_include (specific : SpecificTable) (m : Str) : List Str :=
  match get_measurement_specific_config specific m with
  | some p => p.incl
  | none => []

/-- config_manager.get_fields_to_exclude (src/config_manager.py:478-491). -/
def get_fields_to_exclude (specific : SpecificTable) (m : Str) : List Str :=
  match get_measurement_specific_config specific m with
  | some p => p.excl
  | none => []

/-- config_manager.should_backup_field (src/config_manager.py:493-519):
reject a type outside the allowed list; then, if the include list is
non-empty, keep exactly the listed fields, else keep the fields not
excluded. -/
def should_backup_field (specific : SpecificTable) (m field_name field_type : Str) :
    Bool :=
  if field_type ∉ get_allowed_field_types specific m then false
  else
    let include_list := get_fields_to_include specific m
    if include_list ≠ [] then decide (field_name ∈ include_list)
    else decide (field_name ∉ get_fields_to_exclude specific m)

/-- spec: the field predicate as the claim states it. -/
def field_predicate_per_spec (specific : SpecificTable)
    (m field_name field_type : Str) : Prop :=
  field_type ∈ get_allowed_field_types specific m ∧
    ((get_fields_to_include specific m ≠ [] →
        field_name ∈ get_fields_to_include specific m) ∧
      (get_fields_to_include specific m = [] →
        field_name ∉ get_fields_to_exclude specific m))

/-- A character InfluxDB identifiers may use unquoted: `[a-zA-Z0-9_]`,
the complement of the pattern `re.search` looks for in
utils.escape_influxdb_identifier. -/
def is_identifier_char (c : Char) : Bool :=
  c.isAlphanum || c = '_'

/-- utils.escape_influxdb_identifier (src/utils.py:167-180): wrap the
identifier in double quotes when any character falls outside
`[a-zA-Z0-9_]`, emit it verbatim otherwise. -/
def escape_influxdb_identifier (identifier : Str) : Str :=
  if identifier.any (fun c => !is_identifier_char c) then
    dquote :: identifier ++ [dquote]
  else identifier

/-- spec: the grammar `[A-Za-z_][A-Za-z0-9_]*` the claim says governs
verbatim emission. -/
def matches_identifier_grammar (s : Str) : Bool :=
  match s with
  | [] => false
  | c :: cs => (c.isAlpha || c = '_') && cs.all is_identifier_char

/-- spec: parsing an escaped identifier back — strip one layer of double
quotes when the string is wrapped in them, otherwise read it verbatim. -/
def parse_identifier (s : Str) : Str :=
  if 2 ≤ s.length ∧ s.head? = some dquote ∧ s.getLast? = some dquote then
    (s.drop 1).dropLast
  else s

/-- utils.escape_influxdb_string_value (src/utils.py:183-195): backslash
and single quote are backslash-escaped, then the value is wrapped in
single quotes.  The two sequential `str.replace` calls never rescan the
text they insert, so they amount to this per-character expansion. -/
def escape_influxdb_string_value (value : Str) : Str :=
  squote ::
    value.flatMap (fun c =>
      if c = bslash then [bslash, bslash]
      else if c = squote then [bslash, squote]
      else [c]) ++ [squote]

/-- A scalar value of a row, as the write path receives it.  Python also
passes floats, whose decimal rendering none of the claims depend on;
numeric values are embedded as integers. -/
inductive PyValue where
  | vInt (n : Int)
  | vStr (s : Str)
  | vBool (b : Bool)
  | vNull
deriving DecidableEq

/-- utils.format_influxdb_value (src/utils.py:216-236): `None` renders
empty, booleans lower-case, numbers by `str`, strings quoted and
escaped. -/
def format_influxdb_value (value : PyValue) : Str :=
  match value with
  | .vNull => []
  | .vBool b => if b then "true".data else "false".data
  | .vInt n => int_chars n
  | .vStr s => escape_influxdb_string_value s

/-- The tag-text escaping of utils.build_influxdb_line_protocol
(src/utils.py:265-270): space, comma and equals are backslash-escaped.
The three sequential `str.replace` calls never rescan inserted text, so
they amount to this per-character expansion. -/
def escape_tag_text (s : Str) : Str :=
  s.flatMap (fun c =>
    if c = '\x20' then [bslash, '\x20']
    else if c = ',' then [bslash, ',']
    else if c = '=' then [bslash, '=']
    else [c])

/-- The order Python's `sorted(tags.items())` uses on (key, value)
pairs: lexicographic on the key, then on the value. -/
def tag_pair_le (a b : Str × Str) : Prop :=
  a.1 < b.1 ∨ (a.1 = b.1 ∧ a.2 ≤ b.2)

instance : DecidableRel tag_pair_le := fun a b =>
  inferInstanceAs (Decidable (_ ∨ _))

instance : IsTotal (Str × Str) tag_pair_le where
  total a b := by
    rcases lt_trichotomy a.1 b.1 with h | h | h
    · exact Or.inl (Or.inl h)
    · rcases le_total a.2 b.2 with h2 | h2
      · exact Or.inl (Or.inr ⟨h, h2⟩)
      · exact Or.inr (Or.inr ⟨h.symm, h2⟩)
    · exact Or.inr (Or.inl h)

instance : IsTrans (Str × Str) tag_pair_le where
  trans a b c hab hbc := by
    rcases hab with h1 | ⟨h1, h1v⟩
    · rcases hbc with h2 | ⟨h2, _⟩
      · exact Or.inl (h1.trans h2)
      · exact Or.inl (h2 ▸ h1)
    · rcases hbc with h2 | ⟨h2, h2v⟩
      · exact Or.inl (h1 ▸ h2)
      · exact Or.inr ⟨h1.trans h2, h1v.trans h2v⟩

/-- `sorted(tags.items())` of utils.build_influxdb_line_protocol
(src/utils.py:263): a stable sort of the tag pairs; with the total
antisymmetric pair order this is the unique sorted permutation. -/
def sorted_tag_items (tags : List (Str × Str)) : List (Str × Str) :=
  List.insertionSort tag_pair_le tags

/-- Comma-joined concatenation, Python's `",".join`. -/
def joinc (parts : List Str) : Str :=
  List.intercalate [','] parts

/-- utils.build_influxdb_line_protocol (src/utils.py:239-291): escaped
measurement, a comma-led tag section when tags exist (keys escaped as
identifiers, values tag-escaped, pairs sorted), a mandatory field
section keeping only non-empty formatted values (a `ValueError` —
`Except.error` here — when none remain), and an optional trailing
timestamp. -/
def build_influxdb_line_protocol (measurement : Str) (tags : List (Str × Str))
    (fields : List (Str × PyValue)) (timestamp : Option Int) : Except Str Str :=
  let line0 := escape_influxdb_identifier measurement
  let line1 :=
    if tags ≠ [] then
      line0 ++ [','] ++
        joinc ((sorted_tag_items tags).map (fun kv =>
          escape_influxdb_identifier kv.1 ++ ['='] ++ escape_tag_text kv.2))
    else line0
  let field_strs := fields.filterMap (fun kv =>
    let fv := format_influxdb_value kv.2
    if fv = [] then none
    else some (escape_influxdb_identifier kv.1 ++ ['='] ++ fv))
  if field_strs = [] then .error "At least one field is required".data
  else
    .ok (line1 ++ ['\x20'] ++ joinc field_strs ++
      (match timestamp with
       | some t => '\x20' :: int_chars t
       | none => []))

/-- One record of influxdb_client.query_data as influxdb_client.write_data
receives it: the `time` entry (already a timestamp, `none` when absent)
and the remaining columns in dictionary insertion order. -/
structure PyRecord where
  time : Option Int
  cols : List (Str × PyValue)

/-- The tag half of write_data's demultiplexing loop
(src/classes/influxdb_client.py:604-620): skip `time` and `None`; a
string value whose key does not start with `_` is a tag. -/
def record_tags (r : PyRecord) : List (Str × Str) :=
  r.cols.filterMap (fun kv =>
    if kv.1 = "time".data then none
    else
      match kv.2 with
      | .vNull => none
      | .vStr s => if kv.1.head? = some '_' then none else some (kv.1, s)
      | _ => none)

/-- The field half of write_data's demultiplexing loop
(src/classes/influxdb_client.py:604-620): skip `time` and `None`; a
string value keyed with a leading `_`, and every non-string scalar, is a
field. -/
def record_fields (r : PyRecord) : List (Str × PyValue) :=
  r.cols.filterMap (fun kv =>
    if kv.1 = "time".data then none
    else
      match kv.2 with
      | .vNull => none
      | .vStr _ => if kv.1.head? = some '_' then some kv else none
      | _ => some kv)

/-- influxdb_client.write_data's line generation for one batch
(src/classes/influxdb_client.py:590-627): records whose demultiplexed
field set is empty produce no line; a `ValueError` from the line builder
propagates (and would fail the write). -/
def write_data_lines (measurement : Str) : List PyRecord → Except Str (List Str)
  | [] => .ok []
  | r :: rs =>
    if record_fields r = [] then write_data_lines measurement rs
    else
      match build_influxdb_line_protocol measurement (record_tags r)
          (record_fields r) r.time with
      | .error e => .error e
      | .ok line =>
        match write_data_lines measurement rs with
        | .error e => .error e
        | .ok lines => .ok (line :: lines)

/-- spec: the canonical serialisation of one kept record — sorted tags,
fields in insertion order, none dropped — against which the write path
is compared. -/
def line_per_spec (measurement : Str) (r : PyRecord) : Str :=
  let line0 := escape_influxdb_identifier measurement
  let line1 :=
    if record_tags r ≠ [] then
      line0 ++ [','] ++
        joinc ((sorted_tag_items (record_tags r)).map (fun kv =>
          escape_influxdb_identifier kv.1 ++ ['='] ++ escape_tag_text kv.2))
    else line0
  line1 ++ ['\x20'] ++
    joinc ((record_fields r).map (fun kv =>
      escape_influxdb_identifier kv.1 ++ ['='] ++ format_influxdb_value kv.2)) ++
    (match r.time with
     | some t => '\x20' :: int_chars t
     | none => [])

/-- The loop body of utils.retry_with_backoff (src/utils.py:311-338),
`attempt` being the current 0-based attempt index and `remaining` how
many further attempts are allowed.  `f` gives each attempt's outcome —
any `Except.error`, of whatever kind, is the `except Exception` branch.
The second component records the delays slept, `retry_delay * 2 ^
attempt` before each retry. -/
def retry_attempts {ε α : Type} (f : Nat → Except ε α) (retry_delay : ℚ) :
    Nat → Nat → Except ε α × List ℚ
  | attempt, 0 =>
    match f attempt with
    | .ok a => (.ok a, [])
    | .error e => (.error e, [])
  | attempt, r + 1 =>
    match f attempt with
    | .ok a => (.ok a, [])
    | .error _ =>
      let rest := retry_attempts f retry_delay (attempt + 1) r
      (rest.1, retry_delay * 2 ^ attempt :: rest.2)

/-- utils.retry_with_backoff (src/utils.py:294-340): run the wrapped
call up to `max_retries + 1` times starting at attempt 0. -/
def retry_with_backoff {ε α : Type} (max_retries : Nat) (retry_delay : ℚ)
    (f : Nat → Except ε α) : Except ε α × List ℚ :=
  retry_attempts f retry_delay 0 max_retries

/-- What one HTTP exchange of the transport session can come back as:
a `requests` exception (I/O error, timeout, DNS …) or a response with a
status code and a body. -/
inductive HttpResult where
  | transport_failure
  | http (status : Nat) (body : Option (Option Str × Str))
deriving DecidableEq

/-- The errors influxdb_client._execute_query raises. -/
inductive QueryError where
  | connection_error
  | query_status_error (status : Nat)
  | query_body_error (msg : Str)
  | query_invalid_json
deriving DecidableEq

/-- One un-retried run of influxdb_client._execute_query
(src/classes/influxdb_client.py:120-163): a transport exception becomes
`InfluxDBConnectionError`; any status other than 200 — 4xx and 5xx
alike — becomes `InfluxDBQueryError`; an unparseable body or a body
whose JSON carries an `error` field becomes `InfluxDBQueryError`;
otherwise the parsed body (its payload `Str` here) is returned.  The
body is `none` for invalid JSON, `some (err, data)` for parsed JSON with
optional `error` field `err`. -/
def execute_query_once (resp : HttpResult) : Except QueryError Str :=
  match resp with
  | .transport_failure => .error .connection_error
  | .http status body =>
    if status ≠ 200 then .error (.query_status_error status)
    else
      match body with
      | none => .error .query_invalid_json
      | some (some msg, _) => .error (.query_body_error msg)
      | some (none, data) => .ok data

/-- influxdb_client._execute_query as decorated
(src/classes/influxdb_client.py:120): the `@retry_with_backoff`
decorator is applied with the literals `max_retries=3, retry_delay=1.0`,
not with the configured `retries`/`retry_delay`, and its wrapper catches
every exception. -/
def execute_query (responses : Nat → HttpResult) : Except QueryError Str × List ℚ :=
  retry_with_backoff 3 1 (fun attempt => execute_query_once (responses attempt))

/-- The errors influxdb_client._execute_write raises. -/
inductive WriteError where
  | connection_error
  | write_status_error (status : Nat)
deriving DecidableEq

/-- One un-retried run of influxdb_client._execute_write
(src/classes/influxdb_client.py:165-199): 204 is success, any other
status is `InfluxDBWriteError`, a transport exception is
`InfluxDBConnectionError`. -/
def execute_write_once (resp : HttpResult) : Except WriteError Unit :=
  match resp with
  | .transport_failure => .error .connection_error
  | .http status _ =>
    if status = 204 then .ok () else .error (.write_status_error status)

/-- influxdb_client._execute_write as decorated
(src/classes/influxdb_client.py:165): the same fixed
`max_retries=3, retry_delay=1.0` envelope. -/
def execute_write (responses : Nat → HttpResult) : Except WriteError Unit × List ℚ :=
  retry_with_backoff 3 1 (fun attempt => execute_write_once (responses attempt))

/-- The running maximum of backup_processor._get_incremental_start_time's
loop (src/classes/backup_processor.py:302-319): the latest destination
last-timestamp among the measurement's surviving fields, `none` when no
field has destination data. -/
def latest_field_timestamp (field_timestamps : List (Option Int)) : Option Int :=
  field_timestamps.foldl
    (fun latest ft =>
      match ft with
      | some t =>
        match latest with
        | none => some t
        | some m => if t > m then some t else some m
      | none => latest)
    none

/-- backup_processor._get_incremental_start_time
(src/classes/backup_processor.py:276-339): the latest timestamp plus one
microsecond (`timedelta(microseconds=1)`, 1000 ns), or `none` — full
backup — when no configured field has destination data. -/
def get_incremental_start_time (field_timestamps : List (Option Int)) :
    Option Int :=
  (latest_field_timestamp field_timestamps).map (· + microsecond_ns)

/-- The full-backup lower bound of backup_processor._backup_database
(src/classes/backup_processor.py:887-898): the source's oldest timestamp
for the measurement, or `now - 30 days` when the source has none. -/
def full_backup_start (source_first_time : Option Int) (now : Int) : Int :=
  match source_first_time with
  | some t => t
  | none => now - 30 * day_ns

/-- The measurement-level start backup_processor._backup_database passes
to _backup_measurement in incremental mode
(src/classes/backup_processor.py:881-898). -/
def measurement_start_time (field_timestamps : List (Option Int))
    (full_start : Int) : Int :=
  match get_incremental_start_time field_timestamps with
  | some s => s
  | none => full_start

/-- The start each field actually replicates from, per
backup_processor._backup_single_field
(src/classes/backup_processor.py:379-411): its own destination last
timestamp plus one microsecond when it has data, the measurement-level
start otherwise. -/
def field_start_time (field_last : Option Int) (measurement_start : Int) : Int :=
  match field_last with
  | some t => t + microsecond_ns
  | none => measurement_start

/-- The measurement's effective replication lower bound: the minimum of
its fields' actual start times under the code's measurement-level
start. -/
def effective_lower_bound (field_timestamps : List (Option Int))
    (full_start : Int) : Option Int :=
  (field_timestamps.map (fun ft =>
    field_start_time ft (measurement_start_time field_timestamps full_start))).min?

/-- spec: the lower bound the claim states — the minimum over per-field
starts where a field with data starts one unit past its last timestamp
and a field without data starts at the full-backup lower bound. -/
def lower_bound_per_spec (field_timestamps : List (Option Int))
    (full_start : Int) : Option Int :=
  (field_timestamps.map (fun ft =>
    match ft with
    | some t => t + microsecond_ns
    | none => full_start)).min?

/-- What backup_processor._backup_single_field decides for one field in
incremental mode (src/classes/backup_processor.py:379-408). -/
inductive FieldPlan where
  | skip_no_new_data
  | replicate (start_time end_time : Int)
deriving DecidableEq

/-- The incremental branch of backup_processor._backup_single_field
(src/classes/backup_processor.py:379-408): a field with destination data
starts at its last timestamp plus `timedelta(microseconds=1)` and is
skipped when that start reaches the cutoff (`end_time`); a field without
destination data replicates from the measurement-level start. -/
def field_backup_plan (field_last : Option Int)
    (measurement_start cutoff : Int) : FieldPlan :=
  match field_last with
  | some t =>
    let s := t + microsecond_ns
    if s ≥ cutoff then .skip_no_new_data else .replicate s cutoff
  | none => .replicate measurement_start cutoff

/-- The temporal WHERE clause of influxdb_client.query_data
(src/classes/influxdb_client.py:518-521): `time >= start AND
time < end`, a half-open interval. -/
def query_time_filter (start_time end_time t : Int) : Prop :=
  start_time ≤ t ∧ t < end_time

/-- Everything the time-chunk generator guarantees on a non-degenerate
interval `[t0, t1)` with chunk width `d` days: the i-th chunk is exactly
`(t0 + i*d, min (t0 + (i+1)*d) t1)` while that start lies before `t1`
(so each chunk is produced exactly once), the chunks cover exactly
`[t0, t1)`, consecutive chunks are adjacent and pairwise disjoint, every
chunk is non-empty of width at most `d` days, every non-last chunk has
width exactly `d` days, and a zero-length interval yields no chunks. -/
def TimeChunkSpec (t0 t1 : Int) (d : Nat) : Prop :=
  (∀ i : Nat, (generate_time_ranges t0 t1 d)[i]? =
      if t0 + (i : Int) * ((d : Int) * day_ns) < t1 then
        some (t0 + (i : Int) * ((d : Int) * day_ns),
          min (t0 + ((i : Int) + 1) * ((d : Int) * day_ns)) t1)
      else none) ∧
  (∀ x : Int, (∃ c ∈ generate_time_ranges t0 t1 d, c.1 ≤ x ∧ x < c.2) ↔
      (t0 ≤ x ∧ x < t1)) ∧
  (generate_time_ranges t0 t1 d).Pairwise (fun a b => a.2 ≤ b.1) ∧
  (∀ c ∈ generate_time_ranges t0 t1 d,
      0 < c.2 - c.1 ∧ c.2 - c.1 ≤ (d : Int) * day_ns) ∧
  (∀ (i : Nat) (a b a' b' : Int),
      (generate_time_ranges t0 t1 d)[i]? = some (a, b) →
      (generate_time_ranges t0 t1 d)[i + 1]? = some (a', b') →
      b = a' ∧ b - a = (d : Int) * day_ns) ∧
  (∀ a : Int, generate_time_ranges a a d = [])

/-- Everything the obsolescence predicate guarantees once the threshold
string parses to `threshold` nanoseconds: obsolete exactly when a
destination last timestamp exists and is strictly before
`now - threshold`; an unset threshold or a missing last timestamp is
never obsolete. -/
def ObsoletePredicateSpec (s : Str) (threshold : Int) : Prop :=
  ∀ (now : Int) (last_ts : Option Int),
    (is_field_obsolete (some s) now last_ts = true ↔
      obsolete_per_spec threshold now last_ts) ∧
    is_field_obsolete none now last_ts = false ∧
    is_field_obsolete (some s) now none = false

/-- An empty duration string never parses. -/
theorem parse_duration_nil : parse_duration [] = none := rfl

/-- C7: the obsolescence predicate holds iff the field's destination
last timestamp exists and is strictly earlier than now minus the parsed
threshold; a field with no destination last timestamp is never obsolete,
and with the threshold unset every field is fresh. -/
theorem is_field_obsolete_spec (s : Str) (threshold : Int)
    (hparse : parse_duration s = some threshold) :
    ObsoletePredicateSpec s threshold := by
  have hs : s ≠ [] := by
    intro h
    rw [h, parse_duration_nil] at hparse
    exact Option.noConfusion hparse
  intro now last_ts
  refine ⟨?_, rfl, ?_⟩
  · cases last_ts with
    | none =>
      simp [is_field_obsolete, hs, hparse, obsolete_per_spec]
    | some t =>
      simp [is_field_obsolete, hs, hparse, obsolete_per_spec]
  · simp [is_field_obsolete, hs, hparse]

/-- C7 witness: the predicate at the concrete threshold `30d`. -/
theorem is_field_obsolete_spec_witness :
    parse_duration "30d".data = some 2592000000000000 ∧
      ObsoletePredicateSpec "30d".data 2592000000000000 :=
  ⟨by decide, is_field_obsolete_spec _ _ (by decide)⟩

/-- C8: the field predicate keeps a field iff its type is among the
measurement's allowed types (all three when unspecified) and, when an
include list is present, the name is included, otherwise the name is not
excluded. -/
theorem should_backup_field_spec (specific : SpecificTable)
    (m field_name field_type : Str) :
    should_backup_field specific m field_name field_type = true ↔
      field_predicate_per_spec specific m field_name field_type := by
  unfold should_backup_field field_predicate_per_spec
  by_cases h1 : field_type ∈ get_allowed_field_types specific m
  · by_cases h2 : get_fields_to_include specific m = []
    · simp [h1, h2]
    · simp [h1, h2]
  · simp [h1]

/-- C9: the derived destination database name is prefix + base + suffix
with base the configured destination name when one is supplied (and
non-empty, as the schema guarantees) and the source name otherwise;
prefix and suffix apply even over an explicit destination, and the
obsolescence check derives the name from the source name alone, ignoring
any per-database destination override. -/
theorem get_final_database_name_spec (name_pre name_suf source_name d : Str) :
    (d ≠ [] →
      get_final_database_name name_pre name_suf source_name (some d) =
        name_pre ++ d ++ name_suf) ∧
    get_final_database_name name_pre name_suf source_name none =
      name_pre ++ source_name ++ name_suf ∧
    obsolete_check_database name_pre name_suf source_name =
      name_pre ++ source_name ++ name_suf := by
  refine ⟨?_, rfl, rfl⟩
  intro hd
  simp [get_final_database_name, hd]

/-- Every chunk the generator yields is non-degenerate: its start is
strictly below its end. -/
theorem generate_time_ranges_chunk_pos :
    ∀ (n : Nat) (t0 t1 : Int) (d : Nat), (t1 - t0).toNat ≤ n →
      ∀ c ∈ generate_time_ranges t0 t1 d, c.1 < c.2 := by
  intro n
  induction n with
  | zero =>
    intro t0 t1 d h c hc
    rw [generate_time_ranges] at hc
    by_cases hg : t0 < t1 ∧ 0 < d
    · exact absurd h (by omega)
    · rw [dif_neg hg] at hc
      exact absurd hc (List.not_mem_nil c)
  | succ n ih =>
    intro t0 t1 d h c hc
    rw [generate_time_ranges] at hc
    by_cases hg : t0 < t1 ∧ 0 < d
    · rw [dif_pos hg] at hc
      rcases List.mem_cons.mp hc with rfl | hc'
      · have : (0 : Int) < (d : Int) * day_ns := by
          simp only [day_ns]
          have : (0 : Int) < (d : Int) := by exact_mod_cast hg.2
          positivity
        exact lt_min (by linarith) hg.1
      · refine ih _ t1 d ?_ c hc'
        simp only [day_ns] at *
        omega
    · rw [dif_neg hg] at hc
      exact absurd hc (List.not_mem_nil c)

/-- C10: with start at or after end the generator returns the empty
list — it never yields a chunk — and in general no produced chunk is
zero-width or reversed. -/
theorem generate_time_ranges_degenerate (t0 t1 : Int) (d : Nat) :
    (t1 ≤ t0 → generate_time_ranges t0 t1 d = []) ∧
    (∀ c ∈ generate_time_ranges t0 t1 d, c.1 < c.2) := by
  constructor
  · intro h
    rw [generate_time_ranges, dif_neg]
    intro hg
    exact absurd hg.1 (not_lt.mpr h)
  · exact generate_time_ranges_chunk_pos (t1 - t0).toNat t0 t1 d le_rfl

/-- C4 counterexample: the identifier `123` contains only
`[A-Za-z0-9_]` characters, so the escaper emits it verbatim, yet it does
not match `[A-Za-z_][A-Za-z0-9_]*` — verbatim emission is not governed
by that grammar. -/
theorem escape_identifier_counterexample :
    escape_influxdb_identifier ['1', '2', '3'] = ['1', '2', '3'] ∧
      matches_identifier_grammar ['1', '2', '3'] = false := by
  decide

/-- C4 (amended): the escaper emits an identifier verbatim exactly when
every character lies in `[A-Za-z0-9_]` (leading digits and the empty
identifier included), wrapping it in double quotes otherwise; and for
every identifier containing no double quote, escaping then parsing back
is the identity. -/
theorem escape_identifier_spec (s : Str) :
    (escape_influxdb_identifier s = s ↔ s.all is_identifier_char = true) ∧
    (dquote ∉ s → parse_identifier (escape_influxdb_identifier s) = s) := by
  constructor
  · by_cases h : s.any (fun c => !is_identifier_char c)
    · rw [escape_influxdb_identifier, if_pos h]
      constructor
      · intro he
        have hlen := congrArg List.length he
        simp only [List.length_cons, List.length_append,
          List.length_nil] at hlen
        exact absurd hlen (by omega)
      · intro hall
        rcases List.any_eq_true.mp h with ⟨c, hc, hnc⟩
        have := List.all_eq_true.mp hall c hc
        simp [this] at hnc
    · rw [escape_influxdb_identifier, if_neg h]
      refine ⟨fun _ => ?_, fun _ => rfl⟩
      rw [List.all_eq_true]
      intro c hc
      by_contra hnc
      exact h (List.any_eq_true.mpr ⟨c, hc, by simp [hnc]⟩)
  · intro hq
    by_cases h : s.any (fun c => !is_identifier_char c)
    · rw [escape_influxdb_identifier, if_pos h]
      rw [parse_identifier, if_pos]
      · show ((s ++ [dquote]).dropLast : Str) = s
        rw [List.dropLast_concat]
      · refine ⟨?_, rfl, ?_⟩
        · simp only [List.length_cons, List.length_append, List.length_nil]
          omega
        · show ((dquote :: s) ++ [dquote]).getLast? = some dquote
          rw [List.getLast?_concat]
    · rw [escape_influxdb_identifier, if_neg h]
      rw [parse_identifier, if_neg]
      intro ⟨hlen, hhead, _⟩
      cases s with
      | nil => simp at hlen
      | cons c cs =>
        simp only [List.head?_cons, Option.some.injEq] at hhead
        exact hq (hhead ▸ List.mem_cons_self c cs)

/-- C1 counterexample: with fields `[some 0, none]` and full-backup
lower bound one day before the epoch, the code's effective lower bound
is `1000` ns (the maximum last timestamp plus one microsecond governs
the no-data field), not the claimed minimum, which would be the
full-backup bound. -/
theorem effective_lower_bound_counterexample :
    latest_field_timestamp [some 0, none] = some 0 ∧
    effective_lower_bound [some 0, none] (-86400000000000) = some 1000 ∧
    lower_bound_per_spec [some 0, none] (-86400000000000) =
      some (-86400000000000) ∧
    effective_lower_bound [some 0, none] (-86400000000000) ≠
      lower_bound_per_spec [some 0, none] (-86400000000000) := by
  decide

/-- C1 (amended): when every surviving field has a destination last
timestamp, the measurement's effective replication lower bound is the
minimum over its fields' per-field start times, each being the field's
last destination timestamp plus one microsecond; a field with no
destination data instead starts at the measurement-level start (the
maximum last timestamp plus one microsecond), not at the full-backup
lower bound. -/
theorem effective_lower_bound_all_known (l : List (Option Int))
    (full_start : Int) (h : ∀ ft ∈ l, ft.isSome) :
    effective_lower_bound l full_start = lower_bound_per_spec l full_start := by
  unfold effective_lower_bound lower_bound_per_spec
  congr 1
  apply List.map_congr_left
  intro ft hft
  obtain ⟨t, rfl⟩ := Option.isSome_iff_exists.mp (h ft hft)
  rfl

/-- C1 witness: both bounds agree on a measurement whose two fields both
have destination data. -/
theorem effective_lower_bound_all_known_witness :
    (∀ ft ∈ [some (5 : Int), some 7], ft.isSome) ∧
      effective_lower_bound [some 5, some 7] 0 =
        lower_bound_per_spec [some 5, some 7] 0 :=
  ⟨by decide, effective_lower_bound_all_known _ _ (by decide)⟩

/-- C2 counterexample: a field whose destination last timestamp is the
epoch starts replicating at 1000 ns, not at `0 + 1` ns: the increment is
one microsecond of the Python clock, not one nanosecond of the
destination clock. -/
theorem field_backup_plan_counterexample :
    field_backup_plan (some 0) 0 5000000 = FieldPlan.replicate 1000 5000000 ∧
      FieldPlan.replicate 1000 5000000 ≠ FieldPlan.replicate (0 + 1) 5000000 := by
  decide

/-- C2 (amended): a field with a destination last timestamp starts at
that timestamp plus one microsecond (1000 ns), giving the half-open
interval `[last + 1000 ns, cutoff)`; when that start reaches the cutoff
the field is skipped as having no new data. -/
theorem field_backup_plan_spec (t measurement_start cutoff : Int) :
    (t + microsecond_ns < cutoff →
      field_backup_plan (some t) measurement_start cutoff =
        FieldPlan.replicate (t + 1000) cutoff) ∧
    (cutoff ≤ t + microsecond_ns →
      field_backup_plan (some t) measurement_start cutoff =
        FieldPlan.skip_no_new_data) ∧
    (∀ x, query_time_filter (t + microsecond_ns) cutoff x ↔
      t + 1000 ≤ x ∧ x < cutoff) ∧
    microsecond_ns = 1000 := by
  have hmu : microsecond_ns = 1000 := rfl
  refine ⟨?_, ?_, fun x => Iff.rfl, rfl⟩
  · intro h
    simp only [field_backup_plan, hmu] at h ⊢
    rw [if_neg (by omega)]
  · intro h
    simp only [field_backup_plan, hmu] at h ⊢
    rw [if_pos (by omega)]

/-- The decimal rendering of a natural number is never empty. -/
theorem nat_chars_ne_nil (n : Nat) : nat_chars n ≠ [] := by
  rw [nat_chars]
  split
  · exact List.cons_ne_nil _ _
  · exact List.append_ne_nil_of_right_ne_nil _ (List.cons_ne_nil _ _)

/-- The decimal rendering of an integer is never empty. -/
theorem int_chars_ne_nil (n : Int) : int_chars n ≠ [] := by
  rw [int_chars]
  split
  · exact List.cons_ne_nil _ _
  · exact nat_chars_ne_nil _

/-- Formatting any value other than `None` yields non-empty text. -/
theorem format_value_ne_nil (v : PyValue) (h : v ≠ .vNull) :
    format_influxdb_value v ≠ [] := by
  match v with
  | .vNull => exact absurd rfl h
  | .vBool b => cases b <;> simp [format_influxdb_value]
  | .vInt n => exact int_chars_ne_nil n
  | .vStr s => exact List.cons_ne_nil _ _

/-- Demultiplexing never places a `None` value among the fields. -/
theorem record_fields_not_null (r : PyRecord) (kv : Str × PyValue)
    (h : kv ∈ record_fields r) : kv.2 ≠ .vNull := by
  rw [record_fields, List.mem_filterMap] at h
  obtain ⟨x, _, hx⟩ := h
  by_cases ht : x.1 = "time".data
  · simp [ht] at hx
  · rw [if_neg ht] at hx
    match hv : x.2 with
    | .vNull => rw [hv] at hx; exact absurd hx (by simp)
    | .vStr s =>
      rw [hv] at hx
      by_cases hu : x.1.head? = some '_'
      · rw [if_pos hu] at hx
        obtain rfl := Option.some.inj hx
        rw [hv]
        exact fun hc => PyValue.noConfusion hc
      · simp [hu] at hx
    | .vInt n =>
      rw [hv] at hx
      obtain rfl := Option.some.inj hx
      rw [hv]
      exact fun hc => PyValue.noConfusion hc
    | .vBool b =>
      rw [hv] at hx
      obtain rfl := Option.some.inj hx
      rw [hv]
      exact fun hc => PyValue.noConfusion hc

/-- With no `None` values present, the field section keeps every field
in insertion order: the builder's filter drops nothing. -/
theorem field_strs_eq_map (fields : List (Str × PyValue))
    (h : ∀ kv ∈ fields, kv.2 ≠ PyValue.vNull) :
    fields.filterMap (fun kv =>
        let fv := format_influxdb_value kv.2
        if fv = [] then none
        else some (escape_influxdb_identifier kv.1 ++ ['='] ++ fv)) =
      fields.map (fun kv =>
        escape_influxdb_identifier kv.1 ++ ['='] ++ format_influxdb_value kv.2) := by
  induction fields with
  | nil => rfl
  | cons kv rest ih =>
    have hkv := format_value_ne_nil kv.2 (h kv (List.mem_cons_self kv rest))
    have ih' := ih (fun x hx => h x (List.mem_cons_of_mem kv hx))
    simp [hkv]
    simpa using ih'

/-- For a record with at least one demultiplexed field, the line builder
succeeds and produces exactly the canonical serialisation. -/
theorem build_line_ok (measurement : Str) (r : PyRecord)
    (h : record_fields r ≠ []) :
    build_influxdb_line_protocol measurement (record_tags r) (record_fields r)
        r.time = .ok (line_per_spec measurement r) := by
  unfold build_influxdb_line_protocol line_per_spec
  rw [field_strs_eq_map (record_fields r) (record_fields_not_null r)]
  rw [if_neg (by simpa using h)]

/-- C6: the write path never synthesises a line for a record whose field
set demultiplexes to empty — such records are dropped — and every line
it emits is the deterministic canonical serialisation: sorted tag pairs,
all fields in insertion order (hence at least one field per line), the
optional trailing timestamp. -/
theorem write_data_lines_spec (measurement : Str) (records : List PyRecord) :
    write_data_lines measurement records =
      .ok ((records.filter (fun r => !(record_fields r).isEmpty)).map
        (line_per_spec measurement)) ∧
    (∀ r : PyRecord, record_fields r ≠ [] →
      build_influxdb_line_protocol measurement (record_tags r)
          (record_fields r) r.time = .ok (line_per_spec measurement r) ∧
      (record_fields r).map (fun kv =>
        escape_influxdb_identifier kv.1 ++ ['='] ++
          format_influxdb_value kv.2) ≠ []) ∧
    (∀ r : PyRecord,
      List.Sorted tag_pair_le (sorted_tag_items (record_tags r)) ∧
      List.Perm (sorted_tag_items (record_tags r)) (record_tags r)) := by
  refine ⟨?_, ?_, ?_⟩
  · induction records with
    | nil => rfl
    | cons r rs ih =>
      by_cases h : record_fields r = []
      · rw [write_data_lines, if_pos h, ih, List.filter_cons, if_neg (by simp [h])]
      · rw [write_data_lines, if_neg h, build_line_ok measurement r h, ih,
          List.filter_cons, if_pos (by simp [h]), List.map_cons]
  · intro r h
    refine ⟨build_line_ok measurement r h, ?_⟩
    simpa using h
  · intro r
    exact ⟨List.sorted_insertionSort tag_pair_le (record_tags r),
      List.perm_insertionSort tag_pair_le (record_tags r)⟩

/-- Unfolding the envelope on a successful attempt. -/
theorem retry_attempts_ok {ε α : Type} (f : Nat → Except ε α) (d : ℚ)
    (attempt r : Nat) (a : α) (ha : f attempt = .ok a) :
    retry_attempts f d attempt r = (.ok a, []) := by
  cases r <;> simp [retry_attempts, ha]

/-- Unfolding the envelope on a failing last attempt. -/
theorem retry_attempts_err_zero {ε α : Type} (f : Nat → Except ε α) (d : ℚ)
    (attempt : Nat) (e : ε) (he : f attempt = .error e) :
    retry_attempts f d attempt 0 = (.error e, []) := by
  simp [retry_attempts, he]

/-- Unfolding the envelope on a failing attempt with retries left. -/
theorem retry_attempts_err_succ {ε α : Type} (f : Nat → Except ε α) (d : ℚ)
    (attempt r : Nat) (e : ε) (he : f attempt = .error e) :
    retry_attempts f d attempt (r + 1) =
      ((retry_attempts f d (attempt + 1) r).1,
        d * 2 ^ attempt :: (retry_attempts f d (attempt + 1) r).2) := by
  simp [retry_attempts, he]

/-- When every allowed attempt fails, the envelope surfaces the last
attempt's error after sleeping `retry_delay * 2 ^ attempt` before each
of the `remaining` retries. -/
theorem retry_attempts_all_fail {ε α : Type} (f : Nat → Except ε α) (d : ℚ)
    (errs : Nat → ε) :
    ∀ (r a0 : Nat), (∀ i, a0 ≤ i → i ≤ a0 + r → f i = .error (errs i)) →
      retry_attempts f d a0 r =
        (.error (errs (a0 + r)), (List.range' a0 r).map (fun i => d * 2 ^ i)) := by
  intro r
  induction r with
  | zero =>
    intro a0 h
    rw [retry_attempts_err_zero f d a0 (errs a0) (h a0 le_rfl (by omega))]
    rfl
  | succ r ih =>
    intro a0 h
    have hrest := ih (a0 + 1) (fun i hi1 hi2 => h i (by omega) (by omega))
    rw [retry_attempts_err_succ f d a0 r (errs a0) (h a0 le_rfl (by omega)),
      hrest, List.range'_succ, List.map_cons]
    have : a0 + 1 + r = a0 + (r + 1) := by omega
    rw [this]

/-- When the first success comes at attempt `k ≤ remaining`, the
envelope returns it after the `k` backoff delays of the failed
attempts. -/
theorem retry_attempts_first_ok {ε α : Type} (f : Nat → Except ε α) (d : ℚ) :
    ∀ (k r a0 : Nat) (a : α), k ≤ r →
      (∀ i, a0 ≤ i → i < a0 + k → ∃ e, f i = .error e) →
      f (a0 + k) = .ok a →
      retry_attempts f d a0 r =
        (.ok a, (List.range' a0 k).map (fun i => d * 2 ^ i)) := by
  intro k
  induction k with
  | zero =>
    intro r a0 a _ _ hok
    rw [Nat.add_zero] at hok
    rw [retry_attempts_ok f d a0 r a hok]
    rfl
  | succ k ih =>
    intro r a0 a hkr hfail hok
    obtain ⟨e, he⟩ := hfail a0 le_rfl (by omega)
    match r, hkr with
    | r + 1, hkr =>
      have hrest := ih r (a0 + 1) a (by omega)
        (fun i hi1 hi2 => hfail i (by omega) (by omega))
        (by rw [show a0 + 1 + k = a0 + (k + 1) from by omega]; exact hok)
      rw [retry_attempts_err_succ f d a0 r e he, hrest, List.range'_succ,
        List.map_cons]

/-- C3 counterexample: a dialect-level failure — HTTP 400 whose JSON
body carries an `error` field — is retried by the hard-coded envelope
three times (delays slept before each retry) instead of being surfaced
immediately: the wrapper catches every exception and the decorator uses
the literals 3 and 1.0, not the configured values. -/
theorem execute_query_counterexample :
    (execute_query (fun _ => HttpResult.http 400 (some (some [], [])))).1 =
      .error (QueryError.query_status_error 400) ∧
    (execute_query (fun _ => HttpResult.http 400 (some (some [], [])))).2.length = 3 := by
  constructor
  · rfl
  · rfl

/-- C3 (amended): the retry envelope performs up to `max_retries + 1`
attempts with delay `retry_delay * 2 ^ attempt` before each retry, and
it retries every failure — transport-level and dialect-level alike;
with retry count 0 the first failure surfaces immediately; the client's
query and write methods are wrapped in a fixed envelope with 3 retries
and base delay 1, not the spec-configured values. -/
theorem retry_with_backoff_spec {ε α : Type} (f : Nat → Except ε α) (d : ℚ)
    (n : Nat) :
    (∀ errs : Nat → ε, (∀ i, i ≤ n → f i = .error (errs i)) →
      retry_with_backoff n d f =
        (.error (errs n), (List.range n).map (fun i => d * 2 ^ i))) ∧
    (∀ (k : Nat) (a : α), k ≤ n →
      (∀ i, i < k → ∃ e, f i = .error e) → f k = .ok a →
      retry_with_backoff n d f =
        (.ok a, (List.range k).map (fun i => d * 2 ^ i))) ∧
    (∀ e, f 0 = .error e → retry_with_backoff 0 d f = (.error e, [])) ∧
    (∀ responses, execute_query responses =
      retry_with_backoff 3 1 (fun i => execute_query_once (responses i))) ∧
    (∀ responses, execute_write responses =
      retry_with_backoff 3 1 (fun i => execute_write_once (responses i))) := by
  refine ⟨?_, ?_, ?_, fun _ => rfl, fun _ => rfl⟩
  · intro errs h
    rw [retry_with_backoff, List.range_eq_range']
    have := retry_attempts_all_fail f d errs n 0 (fun i hi1 hi2 => h i (by omega))
    simpa using this
  · intro k a hk hfail hok
    rw [retry_with_backoff, List.range_eq_range']
    have := retry_attempts_first_ok f d k n 0 a hk
      (fun i hi1 hi2 => hfail i (by omega)) (by simpa using hok)
    exact this
  · intro e he
    rw [retry_with_backoff, retry_attempts_err_zero f d 0 e he]

/-- One unfolding of the chunk loop while it still runs. -/
theorem generate_time_ranges_cons (t0 t1 : Int) (d : Nat) (hg : t0 < t1)
    (hd : 0 < d) :
    generate_time_ranges t0 t1 d =
      (t0, min (t0 + (d : Int) * day_ns) t1) ::
        generate_time_ranges (min (t0 + (d : Int) * day_ns) t1) t1 d := by
  rw [generate_time_ranges, dif_pos ⟨hg, hd⟩]

/-- The chunk loop yields nothing once its guard fails. -/
theorem generate_time_ranges_nil (t0 t1 : Int) (d : Nat)
    (h : ¬(t0 < t1 ∧ 0 < d)) : generate_time_ranges t0 t1 d = [] := by
  rw [generate_time_ranges, dif_neg h]

/-- Closed form of the chunk list: the i-th chunk exists exactly while
`t0 + i*d` days lies before `t1` and is
`(t0 + i*d, min (t0 + (i+1)*d) t1)`. -/
theorem generate_time_ranges_closed_form (d : Nat) (hd : 0 < d) :
    ∀ (n : Nat) (t0 t1 : Int), (t1 - t0).toNat ≤ n → ∀ i : Nat,
      (generate_time_ranges t0 t1 d)[i]? =
        if t0 + (i : Int) * ((d : Int) * day_ns) < t1 then
          some (t0 + (i : Int) * ((d : Int) * day_ns),
            min (t0 + ((i : Int) + 1) * ((d : Int) * day_ns)) t1)
        else none := by
  have hD : (0 : Int) < (d : Int) * day_ns := by
    have hdi : (0 : Int) < (d : Int) := by exact_mod_cast hd
    simp only [day_ns]
    positivity
  intro n
  induction n with
  | zero =>
    intro t0 t1 h i
    have ht : t1 ≤ t0 := by omega
    rw [generate_time_ranges_nil t0 t1 d (fun hc => absurd hc.1 (not_lt.mpr ht)),
      List.getElem?_nil, if_neg]
    have h0 : (0 : Int) ≤ (i : Int) * ((d : Int) * day_ns) :=
      mul_nonneg (by positivity) hD.le
    linarith
  | succ n ih =>
    intro t0 t1 h i
    by_cases hg : t0 < t1
    · rw [generate_time_ranges_cons t0 t1 d hg hd]
      cases i with
      | zero =>
        rw [List.getElem?_cons_zero]
        simp only [Nat.cast_zero, zero_mul, add_zero, zero_add, one_mul]
        rw [if_pos hg]
      | succ j =>
        rw [List.getElem?_cons_succ]
        by_cases hm : t0 + (d : Int) * day_ns < t1
        · have hmin : min (t0 + (d : Int) * day_ns) t1 = t0 + (d : Int) * day_ns :=
            min_eq_left hm.le
          rw [hmin]
          have hmeas : (t1 - (t0 + (d : Int) * day_ns)).toNat ≤ n := by
            simp only [day_ns] at h hm hg ⊢
            omega
          rw [ih (t0 + (d : Int) * day_ns) t1 hmeas j]
          have e1 : t0 + (d : Int) * day_ns + (j : Int) * ((d : Int) * day_ns) =
              t0 + ((j : Int) + 1) * ((d : Int) * day_ns) := by ring
          have e2 : t0 + (d : Int) * day_ns +
                ((j : Int) + 1) * ((d : Int) * day_ns) =
              t0 + ((j : Int) + 1 + 1) * ((d : Int) * day_ns) := by ring
          rw [e1, e2]
          have ecast : ((j + 1 : Nat) : Int) = (j : Int) + 1 := by push_cast; ring
          rw [ecast]
        · push_neg at hm
          have hmin : min (t0 + (d : Int) * day_ns) t1 = t1 := min_eq_right hm
          rw [hmin, generate_time_ranges_nil t1 t1 d
            (fun hc => absurd hc.1 (lt_irrefl t1)), List.getElem?_nil, if_neg]
          have h0 : (0 : Int) ≤ (j : Int) * ((d : Int) * day_ns) :=
            mul_nonneg (by positivity) hD.le
          have ecast : ((j + 1 : Nat) : Int) = (j : Int) + 1 := by push_cast; ring
          rw [ecast]
          intro hc
          have : t0 + ((j : Int) + 1) * ((d : Int) * day_ns) =
              t0 + (d : Int) * day_ns + (j : Int) * ((d : Int) * day_ns) := by ring
          rw [this] at hc
          linarith
    · push_neg at hg
      rw [generate_time_ranges_nil t0 t1 d (fun hc => absurd hc.1 (not_lt.mpr hg)),
        List.getElem?_nil, if_neg]
      have h0 : (0 : Int) ≤ (i : Int) * ((d : Int) * day_ns) :=
        mul_nonneg (by positivity) hD.le
      linarith

/-- C5: on a non-empty half-open interval with positive chunk width, the
generator yields exactly the chunks `(t0 + i*d, min (t0 + (i+1)*d, t1))`
— each exactly once — which tile `[t0, t1)` with no gap and no overlap;
every chunk is non-empty of width at most `d` days, only the last may be
shorter than `d` days, and a zero-length interval yields zero chunks. -/
theorem generate_time_ranges_spec (t0 t1 : Int) (d : Nat) (hd : 0 < d)
    (hlt : t0 < t1) : TimeChunkSpec t0 t1 d := by
  have hD : (0 : Int) < (d : Int) * day_ns := by
    have hdi : (0 : Int) < (d : Int) := by exact_mod_cast hd
    simp only [day_ns]
    positivity
  have cf := generate_time_ranges_closed_form d hd (t1 - t0).toNat t0 t1 le_rfl
  unfold TimeChunkSpec
  set D := (d : Int) * day_ns with hDdef
  set l := generate_time_ranges t0 t1 d with hl
  have key : ∀ (k : Nat) (hk : k < l.length),
      t0 + (k : Int) * D < t1 ∧
        l[k] = (t0 + (k : Int) * D, min (t0 + ((k : Int) + 1) * D) t1) := by
    intro k hk
    have h1 := (List.getElem?_eq_getElem hk).symm.trans (cf k)
    by_cases hcond : t0 + (k : Int) * D < t1
    · rw [if_pos hcond] at h1
      exact ⟨hcond, Option.some.inj h1⟩
    · rw [if_neg hcond] at h1
      exact absurd h1 (by simp)
  have hmono : ∀ i j : Nat, i + 1 ≤ j → t0 + ((i : Int) + 1) * D ≤ t0 + (j : Int) * D := by
    intro i j hij
    have hc : (i : Int) + 1 ≤ (j : Int) := by exact_mod_cast hij
    have := mul_le_mul_of_nonneg_right hc hD.le
    linarith
  refine ⟨cf, ?_, ?_, ?_, ?_, ?_⟩
  · intro x
    constructor
    · rintro ⟨c, hc, hcx1, hcx2⟩
      obtain ⟨i, hi, hci⟩ := List.mem_iff_getElem.mp hc
      obtain ⟨hcond, he⟩ := key i hi
      rw [← hci, he] at hcx1 hcx2
      dsimp only at hcx1 hcx2
      have h0 : (0 : Int) ≤ (i : Int) * D := mul_nonneg (by positivity) hD.le
      exact ⟨by linarith, lt_of_lt_of_le hcx2 (min_le_right _ _)⟩
    · rintro ⟨hx1, hx2⟩
      have hdvd := Int.ediv_add_emod (x - t0) D
      have hr0 : 0 ≤ (x - t0) % D := Int.emod_nonneg _ (ne_of_gt hD)
      have hrD : (x - t0) % D < D := Int.emod_lt_of_pos _ hD
      have hq0 : 0 ≤ (x - t0) / D := Int.ediv_nonneg (by linarith) hD.le
      have hqi : (((x - t0) / D).toNat : Int) = (x - t0) / D :=
        Int.toNat_of_nonneg hq0
      have hlow : t0 + ((x - t0) / D) * D ≤ x := by linarith
      have hhigh : x < t0 + ((x - t0) / D + 1) * D := by
        have : ((x - t0) / D + 1) * D = D * ((x - t0) / D) + D := by ring
        linarith
      have hcond : t0 + (((x - t0) / D).toNat : Int) * D < t1 := by
        rw [hqi]
        linarith
      have hmem := cf ((x - t0) / D).toNat
      rw [if_pos hcond] at hmem
      refine ⟨_, List.mem_iff_getElem?.mpr ⟨_, hmem⟩, ?_, ?_⟩
      · simpa [hqi] using hlow
      · refine lt_min ?_ hx2
        simpa [hqi] using hhigh
  · rw [List.pairwise_iff_getElem]
    intro i j hi hj hij
    obtain ⟨_, hei⟩ := key i hi
    obtain ⟨_, hej⟩ := key j hj
    rw [hei, hej]
    exact le_trans (min_le_left _ _) (hmono i j hij)
  · intro c hc
    obtain ⟨i, hi, hci⟩ := List.mem_iff_getElem.mp hc
    obtain ⟨hcond, he⟩ := key i hi
    rw [← hci, he]
    constructor
    · have : t0 + (i : Int) * D < min (t0 + ((i : Int) + 1) * D) t1 :=
        lt_min (by linarith) hcond
      simpa using this
    · have : min (t0 + ((i : Int) + 1) * D) t1 ≤ t0 + ((i : Int) + 1) * D :=
        min_le_left _ _
      simp only []
      linarith
  · intro i A B A' B' h1 h2
    rw [cf i] at h1
    rw [cf (i + 1)] at h2
    have ecast : ((i + 1 : Nat) : Int) = (i : Int) + 1 := by push_cast; ring
    rw [ecast] at h2
    by_cases hc2 : t0 + ((i : Int) + 1) * D < t1
    · rw [if_pos hc2] at h2
      have hc1 : t0 + (i : Int) * D < t1 := by linarith
      rw [if_pos hc1] at h1
      obtain ⟨hA, hB⟩ := Prod.mk.injEq .. ▸ Option.some.inj h1
      obtain ⟨hA', _⟩ := Prod.mk.injEq .. ▸ Option.some.inj h2
      have hBmin : B = t0 + ((i : Int) + 1) * D := by
        rw [← hB]
        exact min_eq_left hc2.le
      refine ⟨by rw [hBmin, ← hA'], ?_⟩
      rw [hBmin, ← hA]
      ring
    · rw [if_neg hc2] at h2
      exact absurd h2 (by simp)
  · intro a
    exact generate_time_ranges_nil a a d (fun hc => absurd hc.1 (lt_irrefl a))

/-- C5 witness: the spec instantiated on `[0, 2 days + 5 ns)` with one
day per chunk. -/
theorem generate_time_ranges_spec_witness :
    0 < 1 ∧ (0 : Int) < 172800000000005 ∧ TimeChunkSpec 0 172800000000005 1 :=
  ⟨Nat.one_pos, by norm_num,
    generate_time_ranges_spec 0 172800000000005 1 Nat.one_pos (by norm_num)⟩
